import Mathlib

/-!
Verification development for the video-analysis backend
(`analysis_pipeline.py`, `tasks.py`).

The pure core of the pipeline is embedded shallowly:

* `VideoAnalysis.similar` — embedding of
  `difflib.SequenceMatcher(None, a, b).ratio()` (CPython stdlib), which is
  what `similar` in `analysis_pipeline.py` calls.  Machine floats are
  modelled as exact rationals (`Rat`); the ratio `2*M/(len a + len b)` is
  exactly representable, and all thresholds compared against are small
  rationals, so no rounding behaviour is involved in any claim.
* `VideoAnalysis.categorize_scenes`, `representative_caption`,
  `combine_scenes_with_transcript`, `merge_text_and_emotions` — direct
  functional renderings of the corresponding Python functions.
* `VideoAnalysis.analyzeEmotions`, `VideoAnalysis.process_video_task` —
  the emotion-stage loop and the Celery task, with the external
  collaborators (whisper, OpenCV, BLIP, the ViT classifier) abstracted as
  fallible functions (`Except String _`), and the observable side effects
  (progress updates, artifact deletion) recorded as an event trace.
-/

namespace VideoAnalysis

/-!
## Similarity Scorer

`similar(a, b) = SequenceMatcher(None, a, b).ratio()`
(analysis_pipeline.py, lines 141-142).

The embedding follows CPython 3.11 `difflib.py`:

* `__chain_b`: with `isjunk = None` the junk set `bjunk` is empty; the
  autojunk rule removes "popular" characters (count `> len(b)//100 + 1`)
  from `b2j` when `len(b) >= 200`.
* `find_longest_match`: the `j2len` dynamic program over rows
  `i ∈ [alo, ahi)` and columns `j ∈ b2j[a[i]] ∩ [blo, bhi)` (ascending, a
  new best only on a strictly larger length), then the four extension
  `while` loops.  Since `bjunk = ∅`, the "non-junk" extension loops accept
  every equal character and the "junk" extension loops never fire; both
  pairs are kept, parameterised by the character predicate.
* `get_matching_blocks` / `ratio`: `ratio` only uses the *sum* of block
  sizes, which is independent of the queue order and of the merging of
  adjacent blocks, so the recursion is rendered directly as a sum
  (`matchingSumF`, with an explicit fuel that is provably sufficient).
-/

namespace SeqMatcher

/-- Autojunk "popular" test of `SequenceMatcher.__chain_b`: when
`len(b) >= 200`, characters with `count > len(b)//100 + 1` are purged from
`b2j`. -/
def isPopular (b : List Char) (c : Char) : Bool :=
  decide (200 ≤ b.length) && decide (b.length / 100 + 1 < b.count c)

/-- `dpCell a b blo bhi i j` holds iff the inner loop of
`find_longest_match` visits cell `(i, j)`: `j ∈ b2j[a[i]]` (so
`a[i] = b[j]` and `b[j]` not purged as popular) and `blo ≤ j < bhi`
(the `continue` / `break` guards). -/
def dpCell (a b : List Char) (blo bhi i j : Nat) : Bool :=
  match a[i]?, b[j]? with
  | some x, some y =>
      decide (blo ≤ j) && decide (j < bhi) && decide (x = y) && !(isPopular b y)
  | _, _ => false

/-- `dpLen a b alo blo bhi i j` is the value `j2len[j]` computed at row `i`
of `find_longest_match`: the length of the longest chain of visited cells
ending at `(i, j)` (`k = newj2len[j] = j2len.get(j-1, 0) + 1`).  The guards
`alo < i` and `blo < j` reflect that row `alo` starts from an empty `j2len`
and that a column `< blo` is never entered in the previous row. -/
def dpLen (a b : List Char) (alo blo bhi : Nat) : Nat → Nat → Nat
  | 0, j => if dpCell a b blo bhi 0 j then 1 else 0
  | i+1, j =>
      if dpCell a b blo bhi (i+1) j then
        (if alo < i + 1 ∧ blo < j then dpLen a b alo blo bhi i (j - 1) else 0) + 1
      else 0

/-- One inner-loop step of `find_longest_match`: at a visited cell compute
`k` and replace the best triple `(besti, bestj, bestsize)` iff
`k > bestsize`. -/
def bestUpd (a b : List Char) (alo blo bhi i : Nat)
    (best : Nat × Nat × Nat) (j : Nat) : Nat × Nat × Nat :=
  if dpCell a b blo bhi i j then
    let k := dpLen a b alo blo bhi i j
    if best.2.2 < k then (i + 1 - k, j + 1 - k, k) else best
  else best

/-- Row `i` of the double loop: columns ascending (difflib iterates the
ascending position list `b2j[a[i]]`; folding over all `j < bhi` with the
cell test in `bestUpd` visits exactly the same cells in the same order). -/
def rowFold (a b : List Char) (alo blo bhi : Nat)
    (best : Nat × Nat × Nat) (i : Nat) : Nat × Nat × Nat :=
  (List.range bhi).foldl (bestUpd a b alo blo bhi i) best

/-- The dynamic program of `find_longest_match`: rows `i ∈ [alo, ahi)`
starting from `(besti, bestj, bestsize) = (alo, blo, 0)`. -/
def dpBest (a b : List Char) (alo ahi blo bhi : Nat) : Nat × Nat × Nat :=
  (List.range' alo (ahi - alo)).foldl (rowFold a b alo blo bhi) (alo, blo, 0)

/-- Left extension loop of `find_longest_match`
(`while besti > alo and bestj > blo and ok(b[bestj-1]) and
a[besti-1] == b[bestj-1]`), with `ok` the character predicate
(`not isbjunk` for the first pair of loops, `isbjunk` for the second). -/
def extLeft (a b : List Char) (ok : Char → Bool) (alo blo : Nat) :
    Nat → Nat → Nat → Nat × Nat × Nat
  | 0, bj, k => (0, bj, k)
  | bi+1, bj, k =>
      if alo < bi + 1 ∧ blo < bj ∧
          (match a[bi]?, b[bj-1]? with
           | some x, some y => ok y && decide (x = y)
           | _, _ => false) = true then
        extLeft a b ok alo blo bi (bj - 1) (k + 1)
      else (bi + 1, bj, k)

/-- Right extension loop of `find_longest_match`
(`while besti+bestsize < ahi and bestj+bestsize < bhi and ok(b[bestj+bestsize])
and a[besti+bestsize] == b[bestj+bestsize]: bestsize += 1`), written with an
explicit fuel; fuel `ahi` always suffices since the loop guard forces
`bi + k < ahi`. -/
def extRight (a b : List Char) (ok : Char → Bool) (ahi bhi bi bj : Nat) :
    Nat → Nat → Nat
  | 0, k => k
  | fuel+1, k =>
      if bi + k < ahi ∧ bj + k < bhi ∧
          (match a[bi + k]?, b[bj + k]? with
           | some x, some y => ok y && decide (x = y)
           | _, _ => false) = true then
        extRight a b ok ahi bhi bi bj fuel (k + 1)
      else k

/-- `find_longest_match(alo, ahi, blo, bhi)`: the dynamic program followed
by the four extension loops.  With `isjunk = None`, `bjunk = ∅`, so the
non-junk loops use the always-true predicate and the junk loops the
always-false one (they never fire, and are kept for fidelity). -/
def findLongestMatch (a b : List Char) (alo ahi blo bhi : Nat) :
    Nat × Nat × Nat :=
  let d := dpBest a b alo ahi blo bhi
  let l1 := extLeft a b (fun _ => true) alo blo d.1 d.2.1 d.2.2
  let k2 := extRight a b (fun _ => true) ahi bhi l1.1 l1.2.1 ahi l1.2.2
  let l3 := extLeft a b (fun _ => false) alo blo l1.1 l1.2.1 k2
  let k4 := extRight a b (fun _ => false) ahi bhi l3.1 l3.2.1 ahi l3.2.2
  (l3.1, l3.2.1, k4)

/-- Total size of the matching blocks of `get_matching_blocks` on the
window `a[alo:ahi] × b[blo:bhi]`.  `ratio` only consumes this sum, which is
invariant under difflib's queue order and adjacent-block merging, so the
queue is rendered as direct recursion.  `fuel` bounds the recursion depth;
`(ahi - alo) + (bhi - blo) + 1` is always sufficient (each recursive call
strictly decreases the window measure). -/
def matchingSumF (a b : List Char) : Nat → Nat → Nat → Nat → Nat → Nat
  | 0, _, _, _, _ => 0
  | fuel+1, alo, ahi, blo, bhi =>
      let m := findLongestMatch a b alo ahi blo bhi
      if m.2.2 = 0 then 0
      else
        m.2.2 + matchingSumF a b fuel alo m.1 blo m.2.1
          + matchingSumF a b fuel (m.1 + m.2.2) ahi (m.2.1 + m.2.2) bhi

/-- `SequenceMatcher.ratio()`: `2*M / (len(a) + len(b))`, and `1.0` when
both sequences are empty (`_calculate_ratio`). -/
def ratio (a b : List Char) : Rat :=
  if a.length + b.length = 0 then 1
  else
    2 * (matchingSumF a b (a.length + b.length + 1) 0 a.length 0 b.length : Rat)
      / (a.length + b.length : Nat)

end SeqMatcher

/-- `similar(a, b) = SequenceMatcher(None, a, b).ratio()`
(analysis_pipeline.py, lines 141-142). -/
def similar (a b : String) : Rat := SeqMatcher.ratio a.data b.data

/-!
## Scene Segmenter

`categorize_scenes` (analysis_pipeline.py, lines 144-203).  The loop body
is rendered as `scenesGo`; a closed scene is kept as its index range
`(start_idx, end_idx)` together with its captions, and the emitted
dictionaries `{captions, start_time, end_time}` are recovered by dividing
the indices by `fps` (exactly what the code does each time it closes a
scene).  `threshold` and `fps` are floats in the source, modelled as `Rat`;
`max_gap` is a Python int, modelled as `Int`.
-/

/-- A closed scene before time conversion: `(start_idx, end_idx, captions)`. -/
abbrev SceneRange := Nat × Nat × List String

/-- The `current` dict of `categorize_scenes`. -/
structure CurScene where
  captions : List String
  start_idx : Nat
  end_idx : Nat
  anchor : String
  gap : Int
deriving Repr

/-- A scene dict `{captions, start_time, end_time}` as emitted by
`categorize_scenes`. -/
structure Scene where
  captions : List String
  start_time : Rat
  end_time : Rat
deriving DecidableEq, Repr

/-- The `for i in range(1, len(captions))` loop of `categorize_scenes`:
`rest` is `captions[i:]`, `prev = captions[i-1]`, `scenes` the closed
scenes so far and `cur` the open scene. -/
def scenesGo (threshold : Rat) (max_gap : Int) :
    List String → String → Nat → List SceneRange → CurScene → List SceneRange
  | [], _, _, scenes, cur =>
      scenes ++ [(cur.start_idx, cur.end_idx, cur.captions)]
  | c :: rest, prev, i, scenes, cur =>
      if threshold ≤ similar c prev ∨ threshold ≤ similar c cur.anchor then
        scenesGo threshold max_gap rest c (i + 1) scenes
          { cur with captions := cur.captions ++ [c], end_idx := i + 1, gap := 0 }
      else if cur.gap < max_gap then
        scenesGo threshold max_gap rest c (i + 1) scenes
          { cur with captions := cur.captions ++ [c], end_idx := i + 1,
                     gap := cur.gap + 1 }
      else
        scenesGo threshold max_gap rest c (i + 1)
          (scenes ++ [(cur.start_idx, cur.end_idx, cur.captions)])
          { captions := [c], start_idx := i, end_idx := i + 1, anchor := c,
            gap := 0 }

/-- Index-range version of `categorize_scenes`. -/
def sceneRanges (captions : List String) (threshold : Rat) (max_gap : Int) :
    List SceneRange :=
  match captions with
  | [] => []
  | c0 :: rest =>
      scenesGo threshold max_gap rest c0 1 []
        { captions := [c0], start_idx := 0, end_idx := 1, anchor := c0, gap := 0 }

/-- Time conversion applied when a scene is closed:
`start_time = start_idx / fps`, `end_time = end_idx / fps`. -/
def toScene (fps : Rat) (r : SceneRange) : Scene :=
  { captions := r.2.2, start_time := (r.1 : Rat) / fps,
    end_time := (r.2.1 : Rat) / fps }

/-- `categorize_scenes(captions, threshold, max_gap, fps)`
(defaults in the source: `threshold=0.6, max_gap=1, fps=1.0`). -/
def categorize_scenes (captions : List String) (threshold : Rat)
    (max_gap : Int) (fps : Rat) : List Scene :=
  (sceneRanges captions threshold max_gap).map (toScene fps)

/-!
## Representative Selector

`representative_caption` (analysis_pipeline.py, lines 207-233).  The
Python `max(range(n), key=lambda i: scores[i])` keeps the current
candidate unless a strictly larger key appears, so the first maximum wins;
the fold below starts from `0` and updates only on `<`.  The returned
index is a Python int (`-1` for empty input), modelled as `Int`.
-/

/-- `representative_caption(captions)` returning
`(best_caption, index_of_best, similarity_scores_per_caption)`. -/
def representative_caption (captions : List String) :
    String × Int × List Rat :=
  let n := captions.length
  if n = 0 then ("", -1, [])
  else if n = 1 then (captions.getD 0 "", 0, [1])
  else
    let scores : List Rat := (List.range n).map fun i =>
      (List.range n).foldl
        (fun s j =>
          if i = j then s
          else s + similar (captions.getD i "") (captions.getD j "")) 0
    let best_i := (List.range n).foldl
      (fun best i => if scores.getD best 0 < scores.getD i 0 then i else best) 0
    (captions.getD best_i "", (best_i : Int), scores)

/-!
## Transcript Aligner

`combine_scenes_with_transcript` (analysis_pipeline.py, lines 237-260).
A transcript segment dict `{start, end, text}` is modelled by
`TranscriptSegment` (field `stop` stands for the key `"end"`, a reserved
word in Lean).
-/

/-- A transcript segment `{start, end, text}`. -/
structure TranscriptSegment where
  start : Rat
  stop : Rat
  text : String
deriving DecidableEq, Repr

/-- A combined scene `{start_time, end_time, description, dialogue}`. -/
structure CombinedScene where
  start_time : Rat
  end_time : Rat
  description : String
  dialogue : List String
deriving DecidableEq, Repr

/-- The membership test of the `scene_dialogue` comprehension:
`scene["start_time"] <= float(seg["start"]) <= scene["end_time"] and
scene["start_time"] <= float(seg["end"]) <= scene["end_time"]`. -/
def segInScene (scene : Scene) (seg : TranscriptSegment) : Bool :=
  decide (scene.start_time ≤ seg.start) && decide (seg.start ≤ scene.end_time)
    && decide (scene.start_time ≤ seg.stop) && decide (seg.stop ≤ scene.end_time)

/-- `combine_scenes_with_transcript(scenes, transcript_segments)`. -/
def combine_scenes_with_transcript (scenes : List Scene)
    (transcript_segments : List TranscriptSegment) : List CombinedScene :=
  scenes.map fun scene =>
    { start_time := scene.start_time
      end_time := scene.end_time
      description := (representative_caption scene.captions).1
      dialogue :=
        (transcript_segments.filter (segInScene scene)).map fun seg => seg.text }

/-!
## Emotion stage

`analyze_emotions` (analysis_pipeline.py, lines 263-322).  The loop body
samples a frame (`clip.get_frame`, the resize and `Image.fromarray`,
lines 280-287 — *outside* the `try`) and classifies it (lines 289-304,
inside the `try`); a classification failure is caught by the
`except Exception` and encoded inline (lines 313-320).  The two external
steps are abstracted as fallible functions.
-/

/-- An emotion sample dict as appended by `analyze_emotions`: either
`{time, dominant_emotion, emotion_scores, num_faces: 1}` or the degraded
`{time, dominant_emotion: "error", emotion_scores: {}, num_faces: 0,
error}`. -/
structure EmotionSample where
  time : Rat
  dominant_emotion : String
  emotion_scores : List (String × Rat)
  num_faces : Nat
  error : Option String
deriving DecidableEq, Repr

/-- Output of the classification step (`processor`/`model`/`softmax`/
`id2label`): the dominant label and the per-label scores. -/
structure Classified where
  dominant : String
  scores : List (String × Rat)
deriving DecidableEq, Repr

/-- The successful-sample record (lines 306-311). -/
def okSample (t : Rat) (c : Classified) : EmotionSample :=
  { time := t, dominant_emotion := c.dominant, emotion_scores := c.scores,
    num_faces := 1, error := none }

/-- The degraded-sample record built by the `except` handler
(lines 313-320). -/
def errSample (t : Rat) (e : String) : EmotionSample :=
  { time := t, dominant_emotion := "error", emotion_scores := [],
    num_faces := 0, error := some e }

/-- The `for t in times` loop of `analyze_emotions`.  `getFrame` models
lines 280-287 (outside the `try`: a failure there propagates and aborts
the stage); `classify` models the `try` body (a failure there is caught
and becomes `errSample`). -/
def analyzeEmotions {α : Type} (getFrame : Rat → Except String α)
    (classify : α → Except String Classified) :
    List Rat → Except String (List EmotionSample)
  | [] => .ok []
  | t :: ts =>
      match getFrame t with
      | .error e => .error e
      | .ok frame =>
          let sample : EmotionSample :=
            match classify frame with
            | .ok c => okSample t c
            | .error e => errSample t e
          match analyzeEmotions getFrame classify ts with
          | .ok l => .ok (sample :: l)
          | .error e => .error e

/-!
## Emotion-Text Merger

`merge_text_and_emotions` (analysis_pipeline.py, lines 326-339).
`transcript_text.split(". ")` splits on each non-overlapping occurrence of
the two-character separator scanning left to right; `str.strip()` drops
leading and trailing whitespace (the ASCII whitespace characters are
modelled; the claims involve only ASCII text).
-/

/-- ASCII whitespace stripped by `str.strip()`. -/
def isPySpace (c : Char) : Bool :=
  c = ' ' || c = '\t' || c = '\n' || c = '\r' || c = '\x0b' || c = '\x0c'

/-- `s.strip()`. -/
def pyStrip (s : String) : String :=
  ⟨((s.data.dropWhile isPySpace).reverse.dropWhile isPySpace).reverse⟩

/-- `text.split(". ")` on the character list, accumulating the current
piece in reverse. -/
def splitDotSpace : List Char → List Char → List (List Char)
  | [], acc => [acc.reverse]
  | '.' :: ' ' :: rest, acc => acc.reverse :: splitDotSpace rest []
  | c :: rest, acc => splitDotSpace rest (c :: acc)

/-- `[s.strip() for s in transcript_text.split(". ") if s.strip()]`. -/
def sentenceUnits (transcript_text : String) : List String :=
  ((splitDotSpace transcript_text.data []).map fun p =>
      pyStrip ⟨p⟩).filter fun s => s ≠ ""

/-- A merged unit `{text, emotion, emotion_scores, time}`. -/
structure MergedUnit where
  text : String
  emotion : String
  emotion_scores : List (String × Rat)
  time : Option Rat
deriving DecidableEq, Repr

/-- `merge_text_and_emotions(transcript_text, emotions)`: one unit per
sentence, with the sample's fields when `i < len(emotions)` and the
defaults `("neutral", {}, None)` otherwise (`emotions[i][...] if
i < len(emotions) else ...`, rendered via the equivalent `emotions[i]?`). -/
def merge_text_and_emotions (transcript_text : String)
    (emotions : List EmotionSample) : List MergedUnit :=
  (sentenceUnits transcript_text).enum.map fun p =>
    { text := p.2
      emotion := match emotions[p.1]? with
        | some e => e.dominant_emotion
        | none => "neutral"
      emotion_scores := match emotions[p.1]? with
        | some e => e.emotion_scores
        | none => []
      time := match emotions[p.1]? with
        | some e => some e.time
        | none => none }

/-!
## Pipeline Orchestrator

`process_video_task` (tasks.py, lines 24-111).  The observable effects —
`self.update_state(meta={"percent": p, "step": s})` and the
`os.remove(video_path)` attempt in the `finally` — are recorded as an
event trace.  The external collaborators (whisper transcription, frame
extraction, BLIP captioning, the emotion stage) are abstracted as
fallible values; a raised exception is an `Except.error`, and the
`try/finally` appends the removal event on every path.
-/

/-- An observable effect of the task. -/
inductive Event
  | progress (percent : Nat) (step : String)
  | removeArtifact
deriving DecidableEq, Repr

/-- Return value of `transcribe_with_whisper`:
`{segments, text, language}`. -/
structure TranscriptionResult where
  segments : List TranscriptSegment
  text : String
  language : String
deriving Repr

/-- The result dict assembled at the end of the task (tasks.py,
lines 89-97). -/
structure TaskResult where
  transcript_text : String
  transcript_segments : List TranscriptSegment
  frame_captions : List String
  scenes : List Scene
  combined_scenes : List CombinedScene
  language : String
  merged_text_emotions : List MergedUnit
deriving Repr

/-- The `try` body of `process_video_task`: the fixed progress schedule
interleaved with the stages, in source order.  `categorize_scenes` is
called with `threshold=0.6, max_gap=1, fps=1.0` (tasks.py, lines 66-71). -/
def taskBody {φ : Type} (transcribe : Except String TranscriptionResult)
    (extract_frames : Except String (List φ))
    (caption_frames : List φ → Except String (List String))
    (emotions : Except String (List EmotionSample)) :
    List Event × Except String TaskResult :=
  let e0 : List Event :=
    [.progress 5 "starting analysis", .progress 20 "transcribing audio"]
  match transcribe with
  | .error err => (e0, .error err)
  | .ok t =>
      let e1 := e0 ++ [.progress 40 "extracting frames"]
      match extract_frames with
      | .error err => (e1, .error err)
      | .ok frames =>
          let e2 := e1 ++ [.progress 60 "captioning frames"]
          match caption_frames frames with
          | .error err => (e2, .error err)
          | .ok frame_captions =>
              let e3 := e2 ++ [.progress 70 "grouping scenes"]
              let scenes := categorize_scenes frame_captions (3/5) 1 1
              let e4 := e3 ++ [.progress 80 "attaching dialogue"]
              let combined := combine_scenes_with_transcript scenes t.segments
              let e5 := e4 ++ [.progress 90 "analyzing emotions"]
              match emotions with
              | .error err => (e5, .error err)
              | .ok ems =>
                  let merged := merge_text_and_emotions t.text ems
                  let e6 := e5 ++ [.progress 100 "finalizing"]
                  (e6,
                   .ok { transcript_text := t.text
                         transcript_segments := t.segments
                         frame_captions := frame_captions
                         scenes := scenes
                         combined_scenes := combined
                         language := t.language
                         merged_text_emotions := merged })

/-- `process_video_task`: the `try` body wrapped by the `finally` that
attempts `os.remove(video_path)` on every exit path (its own `OSError` is
swallowed, so the removal attempt itself never fails the task). -/
def process_video_task {φ : Type}
    (transcribe : Except String TranscriptionResult)
    (extract_frames : Except String (List φ))
    (caption_frames : List φ → Except String (List String))
    (emotions : Except String (List EmotionSample)) :
    List Event × Except String TaskResult :=
  let r := taskBody transcribe extract_frames caption_frames emotions
  (r.1 ++ [.removeArtifact], r.2)

/-- The percent values published by a trace, in order. -/
def percents (events : List Event) : List Nat :=
  events.filterMap fun e =>
    match e with
    | .progress p _ => some p
    | .removeArtifact => none

/-- The fixed percent schedule of the task. -/
def schedule : List Nat := [5, 20, 40, 60, 70, 80, 90, 100]

/-- `chainFrom a rs b`: the scene ranges `rs` tile the index interval
`[a, b)` exactly — the first range starts at `a`, each range is non-empty
(`start < end`), each subsequent range starts exactly where the previous
one ends, and the last one ends at `b` (for `rs = []` this forces
`a = b`). -/
def chainFrom : Nat → List SceneRange → Nat → Prop
  | a, [], b => a = b
  | a, r :: t, b => r.1 = a ∧ a < r.2.1 ∧ chainFrom r.2.1 t b

/-- A best triple `(i, j, k)` of `find_longest_match` lies inside the
window: `alo ≤ i`, `blo ≤ j`, `i + k ≤ ahi`, `j + k ≤ bhi`. -/
abbrev withinWindow (alo ahi blo bhi : Nat) (t : Nat × Nat × Nat) : Prop :=
  alo ≤ t.1 ∧ blo ≤ t.2.1 ∧ t.1 + t.2.2 ≤ ahi ∧ t.2.1 + t.2.2 ≤ bhi

/-!
## Concrete evaluation helpers

The block-sum core of `similar` is pure `Nat` computation and reduces by
`rfl`; only the final `Rat` division needs `norm_num`.  `similar_closed`
bridges the two.
-/

lemma similar_closed (a b : String) (M la lb : Nat) (hla : a.data.length = la)
    (hlb : b.data.length = lb) (h0 : la + lb ≠ 0)
    (hM : SeqMatcher.matchingSumF a.data b.data (la + lb + 1) 0 la 0 lb = M) :
    similar a b = 2 * (M : Rat) / ((la : Rat) + (lb : Rat)) := by
  unfold similar SeqMatcher.ratio
  rw [hla, hlb, hM, if_neg h0]
  push_cast
  ring

set_option maxRecDepth 40000 in
lemma sim_cat_cat : similar "a cat on a mat" "a cat on a mat" = 1 := by
  rw [similar_closed "a cat on a mat" "a cat on a mat" 14 14 14 rfl rfl
    (by decide) rfl]
  norm_num

set_option maxRecDepth 40000 in
lemma sim_dog_cat : similar "a dog running" "a cat on a mat" = 8/27 := by
  rw [similar_closed "a dog running" "a cat on a mat" 4 13 14 rfl rfl
    (by decide) rfl]
  norm_num

set_option maxRecDepth 40000 in
lemma sim_fast_dog : similar "a dog runs fast" "a dog running" = 9/14 := by
  rw [similar_closed "a dog runs fast" "a dog running" 9 15 13 rfl rfl
    (by decide) rfl]
  norm_num

set_option maxRecDepth 40000 in
lemma sim_x_x : similar "x" "x" = 1 := by
  rw [similar_closed "x" "x" 1 1 1 rfl rfl (by decide) rfl]
  norm_num

set_option maxRecDepth 40000 in
lemma sim_x_y : similar "x" "y" = 0 := by
  rw [similar_closed "x" "y" 0 1 1 rfl rfl (by decide) rfl]
  norm_num

set_option maxRecDepth 40000 in
lemma sim_y_x : similar "y" "x" = 0 := by
  rw [similar_closed "y" "x" 0 1 1 rfl rfl (by decide) rfl]
  norm_num

/-- Evaluation of `categorize_scenes` on the C2 example input: the third
caption is dissimilar to both its predecessor and the anchor
(`8/27 < 3/5`) but is tolerated by the gap branch, and the fourth is
similar to its predecessor (`9/14 ≥ 3/5`), so a single scene results. -/
lemma categorize_c2_eval :
    categorize_scenes
        ["a cat on a mat", "a cat on a mat", "a dog running", "a dog runs fast"]
        (3/5) 1 1 =
      [{ captions :=
           ["a cat on a mat", "a cat on a mat", "a dog running", "a dog runs fast"],
         start_time := 0, end_time := 4 }] := by
  have d1 : (3/5 : Rat) ≤ similar "a cat on a mat" "a cat on a mat" := by
    rw [sim_cat_cat]; norm_num
  have d2 : ¬ (3/5 : Rat) ≤ similar "a dog running" "a cat on a mat" := by
    rw [sim_dog_cat]; norm_num
  have d3 : (3/5 : Rat) ≤ similar "a dog runs fast" "a dog running" := by
    rw [sim_fast_dog]; norm_num
  unfold categorize_scenes sceneRanges
  simp only [scenesGo, d1, d2, d3, true_or, or_self, if_true, if_false,
    ite_true, ite_false, List.map, toScene]
  norm_num [Scene.mk.injEq]

/-!
## Representative Selector helpers

The inner loop of `representative_caption` accumulates
`Σ_{j ≠ i} similar(captions[i], captions[j])`; the `max(range(n), key=...)`
call keeps the current candidate unless a strictly larger key appears.
-/

lemma foldl_score (f : Nat → Rat) (i : Nat) (l : List Nat) :
    ∀ c : Rat, l.foldl (fun s j => if i = j then s else s + f j) c =
      c + ((l.filter fun j => decide (j ≠ i)).map f).sum := by
  induction l with
  | nil => intro c; simp
  | cons a t ih =>
      intro c
      by_cases h : i = a
      · subst h
        simpa [List.filter_cons] using ih c
      · rw [List.foldl_cons, if_neg h, ih, List.filter_cons,
          if_pos (by simpa [decide_eq_true_eq] using fun hh => h hh.symm)]
        simp [add_assoc]

lemma argmax_fold (g : Nat → Rat) (n : Nat) (hn : 0 < n) :
    ((List.range n).foldl (fun best i => if g best < g i then i else best) 0) < n ∧
    (∀ j, j < n →
      g j ≤ g ((List.range n).foldl (fun best i => if g best < g i then i else best) 0)) ∧
    (∀ j, j < (List.range n).foldl (fun best i => if g best < g i then i else best) 0 →
      g j < g ((List.range n).foldl (fun best i => if g best < g i then i else best) 0)) := by
  induction n with
  | zero => omega
  | succ m ih =>
      rw [List.range_succ, List.foldl_append]
      rcases Nat.eq_zero_or_pos m with hm | hm
      · subst hm
        simp
      · obtain ⟨ih1, ih2, ih3⟩ := ih hm
        set b := (List.range m).foldl (fun best i => if g best < g i then i else best) 0
          with hb
        simp only [List.foldl_cons, List.foldl_nil]
        by_cases hlt : g b < g m
        · rw [if_pos hlt]
          refine ⟨Nat.lt_succ_self m, ?_, ?_⟩
          · intro j hj
            rcases Nat.lt_succ_iff_lt_or_eq.mp hj with hj' | hj'
            · exact le_of_lt (lt_of_le_of_lt (ih2 j hj') hlt)
            · subst hj'; exact le_refl _
          · intro j hj
            exact lt_of_le_of_lt (ih2 j hj) hlt
        · rw [if_neg hlt]
          refine ⟨Nat.lt_succ_of_lt ih1, ?_, ih3⟩
          intro j hj
          rcases Nat.lt_succ_iff_lt_or_eq.mp hj with hj' | hj'
          · exact ih2 j hj'
          · subst hj'; exact le_of_not_lt hlt

/-!
## Scene Segmenter helpers

Properties of `chainFrom` and the loop invariant of `scenesGo`: the open
scene always satisfies `start_idx < end_idx = i` (the current loop index),
and the closed scenes tile `[0, start_idx)`.
-/

lemma chainFrom_le : ∀ (rs : List SceneRange) (a b : Nat), chainFrom a rs b → a ≤ b := by
  intro rs
  induction rs with
  | nil => intro a b h; exact le_of_eq h
  | cons r t ih =>
      intro a b h
      obtain ⟨-, hlt, hc⟩ := h
      exact le_of_lt (lt_of_lt_of_le hlt (ih _ _ hc))

lemma chainFrom_append_single :
    ∀ (rs : List SceneRange) (a m : Nat) (r : SceneRange),
      chainFrom a rs m → r.1 = m → r.1 < r.2.1 →
      chainFrom a (rs ++ [r]) r.2.1 := by
  intro rs
  induction rs with
  | nil =>
      intro a m r hc h1 h2
      exact ⟨by rw [h1, ← hc], by rw [← hc] at h1; rw [← h1]; exact h2, rfl⟩
  | cons s t ih =>
      intro a m r hc h1 h2
      obtain ⟨hs, hlt, hrest⟩ := hc
      exact ⟨hs, hlt, ih _ _ r hrest h1 h2⟩

lemma chainFrom_ranges_nonempty :
    ∀ (rs : List SceneRange) (a b : Nat), chainFrom a rs b →
      ∀ r ∈ rs, r.1 < r.2.1 := by
  intro rs
  induction rs with
  | nil => intro a b _ r hr; cases hr
  | cons s t ih =>
      intro a b h r hr
      obtain ⟨hs, hlt, hrest⟩ := h
      rcases List.mem_cons.mp hr with hr | hr
      · subst hr; rw [hs]; exact hlt
      · exact ih _ _ hrest r hr

lemma chainFrom_start_ge :
    ∀ (rs : List SceneRange) (a b : Nat), chainFrom a rs b →
      ∀ r ∈ rs, a ≤ r.1 := by
  intro rs
  induction rs with
  | nil => intro a b _ r hr; cases hr
  | cons s t ih =>
      intro a b h r hr
      obtain ⟨hs, hlt, hrest⟩ := h
      rcases List.mem_cons.mp hr with hr | hr
      · subst hr; exact le_of_eq hs.symm
      · exact le_trans (le_of_lt hlt) (ih _ _ hrest r hr)

lemma chainFrom_pairwise :
    ∀ (rs : List SceneRange) (a b : Nat), chainFrom a rs b →
      rs.Pairwise (fun r s => r.2.1 ≤ s.1) := by
  intro rs
  induction rs with
  | nil => intro a b _; exact List.Pairwise.nil
  | cons s t ih =>
      intro a b h
      obtain ⟨hs, hlt, hrest⟩ := h
      exact List.Pairwise.cons (fun r hr => chainFrom_start_ge t _ _ hrest r hr)
        (ih _ _ hrest)

lemma chainFrom_mem_iff :
    ∀ (rs : List SceneRange) (a b m : Nat), chainFrom a rs b →
      ((∃ r ∈ rs, r.1 ≤ m ∧ m < r.2.1) ↔ (a ≤ m ∧ m < b)) := by
  intro rs
  induction rs with
  | nil =>
      intro a b m h
      have h' : a = b := h
      subst h'
      constructor
      · rintro ⟨r, hr, -⟩
        exact absurd hr (List.not_mem_nil r)
      · intro hh
        exact absurd hh (by omega)
  | cons s t ih =>
      intro a b m h
      obtain ⟨hs, hlt, hrest⟩ := h
      have hle := chainFrom_le t _ _ hrest
      constructor
      · rintro ⟨r, hr, h1, h2⟩
        rcases List.mem_cons.mp hr with hr | hr
        · subst hr
          exact ⟨hs ▸ h1, lt_of_lt_of_le h2 (by
            have := chainFrom_le t _ _ hrest
            exact le_trans (le_refl _) this)⟩
        · have := (ih _ _ m hrest).mp ⟨r, hr, h1, h2⟩
          exact ⟨le_trans (le_of_lt hlt) this.1, this.2⟩
      · rintro ⟨h1, h2⟩
        by_cases hm : m < s.2.1
        · exact ⟨s, List.mem_cons_self s t, hs ▸ h1, hm⟩
        · have := (ih _ _ m hrest).mpr ⟨le_of_not_lt hm, h2⟩
          obtain ⟨r, hr, hr1, hr2⟩ := this
          exact ⟨r, List.mem_cons_of_mem s hr, hr1, hr2⟩

lemma chainFrom_head? :
    ∀ (rs : List SceneRange) (a b : Nat), chainFrom a rs b → rs ≠ [] →
      rs.head?.map (fun r => r.1) = some a := by
  intro rs a b h hne
  cases rs with
  | nil => exact absurd rfl hne
  | cons s t => simp [h.1]

lemma chainFrom_getLast? :
    ∀ (rs : List SceneRange) (a b : Nat), chainFrom a rs b → rs ≠ [] →
      rs.getLast?.map (fun r => r.2.1) = some b := by
  intro rs
  induction rs with
  | nil => intro a b _ hne; exact absurd rfl hne
  | cons s t ih =>
      intro a b h _
      obtain ⟨hs, hlt, hrest⟩ := h
      cases t with
      | nil => cases hrest; simp
      | cons u v =>
          rw [List.getLast?_cons_cons]
          exact ih _ _ hrest (by simp)

/-- Loop invariant of `scenesGo`: if the open scene ends exactly at the
current index `i`, is non-empty, and the closed scenes tile
`[0, cur.start_idx)`, then the final output tiles `[0, i + |rest|)`. -/
lemma scenesGo_chain (threshold : Rat) (max_gap : Int) :
    ∀ (rest : List String) (prev : String) (i : Nat) (scenes : List SceneRange)
      (cur : CurScene),
      cur.end_idx = i → cur.start_idx < i →
      chainFrom 0 scenes cur.start_idx →
      chainFrom 0 (scenesGo threshold max_gap rest prev i scenes cur)
        (i + rest.length) := by
  intro rest
  induction rest with
  | nil =>
      intro prev i scenes cur hend hlt hchain
      rw [scenesGo, List.length_nil, Nat.add_zero]
      have h2 := chainFrom_append_single scenes 0 cur.start_idx
        (cur.start_idx, cur.end_idx, cur.captions) hchain rfl
        (show cur.start_idx < cur.end_idx by omega)
      simpa [hend] using h2
  | cons c rest ih =>
      intro prev i scenes cur hend hlt hchain
      rw [scenesGo, List.length_cons]
      have harith : i + (rest.length + 1) = (i + 1) + rest.length := by omega
      rw [harith]
      by_cases h1 : threshold ≤ similar c prev ∨ threshold ≤ similar c cur.anchor
      · rw [if_pos h1]
        exact ih c (i + 1) scenes _ rfl (show cur.start_idx < i + 1 by omega) hchain
      · rw [if_neg h1]
        by_cases h2 : cur.gap < max_gap
        · rw [if_pos h2]
          exact ih c (i + 1) scenes _ rfl (show cur.start_idx < i + 1 by omega) hchain
        · rw [if_neg h2]
          refine ih c (i + 1) _ _ rfl (show i < i + 1 by omega) ?_
          show chainFrom 0 (scenes ++ [(cur.start_idx, cur.end_idx, cur.captions)]) i
          have h3 := chainFrom_append_single scenes 0 cur.start_idx
            (cur.start_idx, cur.end_idx, cur.captions) hchain rfl
            (show cur.start_idx < cur.end_idx by omega)
          simpa [hend] using h3

/-- The output of `sceneRanges` on a non-empty caption list tiles
`[0, n)`. -/
lemma sceneRanges_chain (captions : List String) (threshold : Rat)
    (max_gap : Int) (hne : captions ≠ []) :
    chainFrom 0 (sceneRanges captions threshold max_gap) captions.length := by
  cases captions with
  | nil => exact absurd rfl hne
  | cons c0 rest =>
      rw [sceneRanges, List.length_cons]
      have harith : rest.length + 1 = 1 + rest.length := by omega
      rw [harith]
      exact scenesGo_chain threshold max_gap rest c0 1 []
        { captions := [c0], start_idx := 0, end_idx := 1, anchor := c0, gap := 0 }
        rfl (show 0 < 1 by omega) rfl

/-!
## Claims
-/

/-- C1: for every non-empty caption list, the scenes returned by
`categorize_scenes` partition the caption index range `[0, n)` into
contiguous, non-overlapping, ascending half-open ranges whose union is
exactly `[0, n)`: the first scene's range starts at `0`, each range is
non-empty, each subsequent range starts exactly where the previous one
ends, and the last ends at `n` (all of which is `chainFrom 0 _ n`); the
emitted scenes are exactly these ranges with their endpoints divided by
`fps`.  On the empty caption list it returns the empty scene list. -/
theorem c1_scenes_partition (captions : List String) (threshold : Rat)
    (max_gap : Int) (fps : Rat) :
    (captions = [] → categorize_scenes captions threshold max_gap fps = []) ∧
    (captions ≠ [] →
      sceneRanges captions threshold max_gap ≠ [] ∧
      chainFrom 0 (sceneRanges captions threshold max_gap) captions.length ∧
      ((sceneRanges captions threshold max_gap).head?.map (fun r => r.1) = some 0) ∧
      ((sceneRanges captions threshold max_gap).getLast?.map (fun r => r.2.1) =
        some captions.length) ∧
      (∀ r ∈ sceneRanges captions threshold max_gap, r.1 < r.2.1) ∧
      (sceneRanges captions threshold max_gap).Pairwise (fun r s => r.2.1 ≤ s.1) ∧
      (∀ m, m < captions.length ↔
        ∃ r ∈ sceneRanges captions threshold max_gap, r.1 ≤ m ∧ m < r.2.1) ∧
      categorize_scenes captions threshold max_gap fps =
        (sceneRanges captions threshold max_gap).map (toScene fps)) := by
  constructor
  · intro h; subst h; rfl
  · intro hne
    have hchain := sceneRanges_chain captions threshold max_gap hne
    have hn : 0 < captions.length := List.length_pos.mpr hne
    have hrs : sceneRanges captions threshold max_gap ≠ [] := by
      intro h
      rw [h] at hchain
      exact absurd hchain.symm (by omega)
    refine ⟨hrs, hchain, chainFrom_head? _ _ _ hchain hrs,
      chainFrom_getLast? _ _ _ hchain hrs,
      chainFrom_ranges_nonempty _ _ _ hchain,
      chainFrom_pairwise _ _ _ hchain, ?_, rfl⟩
    intro m
    rw [chainFrom_mem_iff _ _ _ m hchain]
    omega

/-- C1 witness: the single-caption example — one scene whose range is
`[0, 1)`, emitted as `start_time = 0.0`, `end_time = 1.0` at `fps = 1`. -/
theorem c1_scenes_partition_witness :
    sceneRanges ["hello world"] (3/5) 1 ≠ [] ∧
    chainFrom 0 (sceneRanges ["hello world"] (3/5) 1) 1 ∧
    categorize_scenes ["hello world"] (3/5) 1 1 =
      (sceneRanges ["hello world"] (3/5) 1).map (toScene 1) := by
  have h := (c1_scenes_partition ["hello world"] (3/5) 1 1).2 (by decide)
  exact ⟨h.1, h.2.1, h.2.2.2.2.2.2.2⟩

/-!
## Similarity Scorer properties

Bounds: each `j2len` chain fits inside the window, so every best triple
satisfies `alo ≤ i`, `blo ≤ j`, `i + k ≤ ahi`, `j + k ≤ bhi`; the block
sum is therefore at most the window size on either side, which gives
`ratio ∈ [0, 1]`.
-/

namespace SeqMatcher

lemma dpCell_bounds {a b : List Char} {blo bhi i j : Nat}
    (h : dpCell a b blo bhi i j = true) : blo ≤ j ∧ j < bhi := by
  unfold dpCell at h
  rcases hx : a[i]? with _ | u <;> rcases hy : b[j]? with _ | w <;>
    rw [hx, hy] at h <;> simp_all

lemma dpLen_zero_of_not_cell {a b : List Char} {alo blo bhi i j : Nat}
    (h : ¬ dpCell a b blo bhi i j = true) :
    dpLen a b alo blo bhi i j = 0 := by
  cases i with
  | zero => rw [dpLen, if_neg h]
  | succ m => rw [dpLen, if_neg h]

lemma dpLen_le_row (a b : List Char) (alo blo bhi : Nat) :
    ∀ i j, alo ≤ i → dpLen a b alo blo bhi i j ≤ i + 1 - alo := by
  intro i
  induction i with
  | zero =>
      intro j h
      rw [dpLen]
      split <;> omega
  | succ m ih =>
      intro j h
      rw [dpLen]
      split
      · split
        · next hg =>
            have := ih (j - 1) (by omega)
            omega
        · omega
      · omega

lemma dpLen_le_col (a b : List Char) (alo blo bhi : Nat) :
    ∀ i j, dpLen a b alo blo bhi i j ≤ j + 1 - blo := by
  intro i
  induction i with
  | zero =>
      intro j
      rw [dpLen]
      split
      · next hc => have := dpCell_bounds hc; omega
      · omega
  | succ m ih =>
      intro j
      rw [dpLen]
      split
      · next hc =>
          have hb := dpCell_bounds hc
          split
          · next hg =>
              have := ih (j - 1)
              omega
          · omega
      · omega

lemma bestUpd_inv (a b : List Char) (alo blo bhi ahi i j : Nat)
    (best : Nat × Nat × Nat) (hi : alo ≤ i) (hia : i < ahi)
    (h : withinWindow alo ahi blo bhi best) :
    withinWindow alo ahi blo bhi (bestUpd a b alo blo bhi i best j) := by
  obtain ⟨h1, h2, h3, h4⟩ := h
  unfold bestUpd
  split
  · next hc =>
      have hb := dpCell_bounds hc
      have hrow := dpLen_le_row a b alo blo bhi i j hi
      have hcol := dpLen_le_col a b alo blo bhi i j
      dsimp only
      split
      · refine ⟨?_, ?_, ?_, ?_⟩ <;> dsimp only <;> omega
      · exact ⟨h1, h2, h3, h4⟩
  · exact ⟨h1, h2, h3, h4⟩

lemma foldl_bestUpd_inv (a b : List Char) (alo blo bhi ahi i : Nat)
    (hi : alo ≤ i) (hia : i < ahi) :
    ∀ (l : List Nat) (best : Nat × Nat × Nat),
      withinWindow alo ahi blo bhi best →
      withinWindow alo ahi blo bhi (l.foldl (bestUpd a b alo blo bhi i) best) := by
  intro l
  induction l with
  | nil => intro best h; exact h
  | cons j t iht =>
      intro best h
      rw [List.foldl_cons]
      exact iht _ (bestUpd_inv a b alo blo bhi ahi i j best hi hia h)

lemma rowFold_inv (a b : List Char) (alo blo bhi ahi i : Nat)
    (best : Nat × Nat × Nat) (hi : alo ≤ i) (hia : i < ahi)
    (h : withinWindow alo ahi blo bhi best) :
    withinWindow alo ahi blo bhi (rowFold a b alo blo bhi best i) := by
  unfold rowFold
  exact foldl_bestUpd_inv a b alo blo bhi ahi i hi hia (List.range bhi) best h

lemma foldl_rowFold_inv (a b : List Char) (alo blo bhi ahi : Nat) :
    ∀ (l : List Nat) (best : Nat × Nat × Nat),
      (∀ i ∈ l, alo ≤ i ∧ i < ahi) →
      withinWindow alo ahi blo bhi best →
      withinWindow alo ahi blo bhi (l.foldl (rowFold a b alo blo bhi) best) := by
  intro l
  induction l with
  | nil => intro best _ h; exact h
  | cons i t iht =>
      intro best hmem h
      rw [List.foldl_cons]
      have hi := hmem i (List.mem_cons_self i t)
      exact iht _ (fun p hp => hmem p (List.mem_cons_of_mem i hp))
        (rowFold_inv a b alo blo bhi ahi i best hi.1 hi.2 h)

lemma dpBest_inv (a b : List Char) (alo ahi blo bhi : Nat)
    (halo : alo ≤ ahi) (hblo : blo ≤ bhi) :
    withinWindow alo ahi blo bhi (dpBest a b alo ahi blo bhi) := by
  unfold dpBest
  refine foldl_rowFold_inv a b alo blo bhi ahi (List.range' alo (ahi - alo))
    (alo, blo, 0) ?_
    ⟨le_refl _, le_refl _, by dsimp only; omega, by dsimp only; omega⟩
  intro i hi
  have hmem := List.mem_range'_1.mp hi
  exact ⟨hmem.1, by omega⟩

lemma extLeft_inv (a b : List Char) (ok : Char → Bool) (alo blo ahi bhi : Nat) :
    ∀ bi bj k, alo ≤ bi → blo ≤ bj → bi + k ≤ ahi → bj + k ≤ bhi →
      withinWindow alo ahi blo bhi (extLeft a b ok alo blo bi bj k) := by
  intro bi
  induction bi with
  | zero =>
      intro bj k h1 h2 h3 h4
      exact ⟨h1, h2, h3, h4⟩
  | succ m ih =>
      intro bj k h1 h2 h3 h4
      rw [extLeft]
      split
      · next hcond =>
          exact ih (bj - 1) (k + 1) (by omega) (by omega) (by omega) (by omega)
      · exact ⟨h1, h2, h3, h4⟩

lemma extRight_le (a b : List Char) (ok : Char → Bool) (ahi bhi bi bj : Nat) :
    ∀ fuel k, bi + k ≤ ahi → bj + k ≤ bhi →
      bi + extRight a b ok ahi bhi bi bj fuel k ≤ ahi ∧
      bj + extRight a b ok ahi bhi bi bj fuel k ≤ bhi ∧
      k ≤ extRight a b ok ahi bhi bi bj fuel k := by
  intro fuel
  induction fuel with
  | zero =>
      intro k h1 h2
      exact ⟨h1, h2, le_refl _⟩
  | succ f ih =>
      intro k h1 h2
      rw [extRight]
      split
      · next hcond =>
          have := ih (k + 1) (by omega) (by omega)
          exact ⟨this.1, this.2.1, by omega⟩
      · exact ⟨h1, h2, le_refl _⟩

lemma findLongestMatch_inv (a b : List Char) (alo ahi blo bhi : Nat)
    (halo : alo ≤ ahi) (hblo : blo ≤ bhi) :
    withinWindow alo ahi blo bhi (findLongestMatch a b alo ahi blo bhi) := by
  unfold findLongestMatch
  obtain ⟨hd1, hd2, hd3, hd4⟩ := dpBest_inv a b alo ahi blo bhi halo hblo
  obtain ⟨hl1, hl2, hl3, hl4⟩ :=
    extLeft_inv a b (fun _ => true) alo blo ahi bhi _ _ _ hd1 hd2 hd3 hd4
  obtain ⟨hr1, hr2, hr3⟩ :=
    extRight_le a b (fun _ => true) ahi bhi _ _ ahi _ hl3 hl4
  obtain ⟨hm1, hm2, hm3, hm4⟩ :=
    extLeft_inv a b (fun _ => false) alo blo ahi bhi _ _ _ hl1 hl2 hr1 hr2
  obtain ⟨hs1, hs2, hs3⟩ :=
    extRight_le a b (fun _ => false) ahi bhi _ _ ahi _ hm3 hm4
  exact ⟨hm1, hm2, hs1, hs2⟩

lemma matchingSumF_le (a b : List Char) :
    ∀ fuel alo ahi blo bhi, alo ≤ ahi → blo ≤ bhi →
      matchingSumF a b fuel alo ahi blo bhi ≤ ahi - alo ∧
      matchingSumF a b fuel alo ahi blo bhi ≤ bhi - blo := by
  intro fuel
  induction fuel with
  | zero =>
      intro alo ahi blo bhi h1 h2
      rw [matchingSumF]
      omega
  | succ f ih =>
      intro alo ahi blo bhi h1 h2
      rw [matchingSumF]
      obtain ⟨hf1, hf2, hf3, hf4⟩ := findLongestMatch_inv a b alo ahi blo bhi h1 h2
      split
      · omega
      · have hL := ih alo (findLongestMatch a b alo ahi blo bhi).1 blo
          (findLongestMatch a b alo ahi blo bhi).2.1 hf1 hf2
        have hR := ih ((findLongestMatch a b alo ahi blo bhi).1 +
            (findLongestMatch a b alo ahi blo bhi).2.2) ahi
          ((findLongestMatch a b alo ahi blo bhi).2.1 +
            (findLongestMatch a b alo ahi blo bhi).2.2) bhi hf3 hf4
        omega

/-!
For `a = b = x` the dynamic program always reports a *diagonal* best
(`besti = bestj`): a chain ending at `(i, j)` forces the same chain on the
diagonal through `min i j`, so the first time the running maximum is
attained is on the diagonal (column order is ascending and a new best
needs a strictly larger length).  The extension loops then grow any
diagonal best to the full window, hence `find_longest_match` on
`(lo, hi) × (lo, hi)` returns `(lo, lo, hi - lo)` and `ratio(x, x) = 1`,
autojunk notwithstanding.
-/

lemma dpLen_zero (a b : List Char) (alo blo bhi j : Nat) :
    dpLen a b alo blo bhi 0 j = if dpCell a b blo bhi 0 j then 1 else 0 := rfl

lemma dpLen_succ (a b : List Char) (alo blo bhi m j : Nat) :
    dpLen a b alo blo bhi (m+1) j =
      if dpCell a b blo bhi (m+1) j then
        (if alo < m + 1 ∧ blo < j then dpLen a b alo blo bhi m (j - 1) else 0) + 1
      else 0 := rfl

lemma dpCell_diag {x : List Char} {blo bhi i j : Nat}
    (h : dpCell x x blo bhi i j = true) : dpCell x x blo bhi j j = true := by
  unfold dpCell at h ⊢
  rcases hxi : x[i]? with _ | u <;> rcases hxj : x[j]? with _ | w <;> simp_all

lemma dpCell_diag_left {x : List Char} {blo bhi i j : Nat}
    (h : dpCell x x blo bhi i j = true) (h1 : blo ≤ i) (h2 : i < bhi) :
    dpCell x x blo bhi i i = true := by
  unfold dpCell at h ⊢
  rcases hxi : x[i]? with _ | u <;> rcases hxj : x[j]? with _ | w <;> simp_all

lemma dpLen_le_diag_left (x : List Char) (lo bhi : Nat) :
    ∀ i j, j ≤ i → dpLen x x lo lo bhi i j ≤ dpLen x x lo lo bhi j j := by
  intro i
  induction i with
  | zero =>
      intro j hj
      have : j = 0 := by omega
      subst this
      exact le_refl _
  | succ m ih =>
      intro j hj
      rcases Nat.eq_or_lt_of_le hj with heq | hlt
      · rw [heq]
      · have hjm : j ≤ m := by omega
        by_cases hc : dpCell x x lo bhi (m+1) j = true
        · have hcjj := dpCell_diag hc
          cases j with
          | zero =>
              rw [dpLen_succ x x lo lo bhi m 0, if_pos hc,
                dpLen_zero x x lo lo bhi 0, if_pos hcjj,
                if_neg (by omega)]
          | succ p =>
              rw [dpLen_succ x x lo lo bhi m (p+1), if_pos hc,
                dpLen_succ x x lo lo bhi p (p+1), if_pos hcjj]
              by_cases hg : lo < m + 1 ∧ lo < p + 1
              · rw [if_pos hg, if_pos ⟨hg.2, hg.2⟩]
                simp only [Nat.add_sub_cancel]
                have := ih p (by omega)
                omega
              · rw [if_neg hg]
                split <;> omega
        · rw [dpLen_zero_of_not_cell hc]
          exact Nat.zero_le _

lemma dpLen_le_diag_right (x : List Char) (lo bhi : Nat) :
    ∀ i j, i ≤ j → lo ≤ i → i < bhi →
      dpLen x x lo lo bhi i j ≤ dpLen x x lo lo bhi i i := by
  intro i
  induction i with
  | zero =>
      intro j hij h1 h2
      by_cases hc : dpCell x x lo bhi 0 j = true
      · have hcii := dpCell_diag_left hc h1 h2
        rw [dpLen_zero x x lo lo bhi j, if_pos hc,
          dpLen_zero x x lo lo bhi 0, if_pos hcii]
      · rw [dpLen_zero_of_not_cell hc]
        exact Nat.zero_le _
  | succ m ih =>
      intro j hij h1 h2
      by_cases hc : dpCell x x lo bhi (m+1) j = true
      · have hcii := dpCell_diag_left hc h1 h2
        cases j with
        | zero => exact absurd hij (by omega)
        | succ p =>
            rw [dpLen_succ x x lo lo bhi m (p+1), if_pos hc,
              dpLen_succ x x lo lo bhi m (m+1), if_pos hcii]
            by_cases hg : lo < m + 1 ∧ lo < p + 1
            · rw [if_pos hg, if_pos ⟨hg.1, hg.1⟩]
              simp only [Nat.add_sub_cancel]
              have := ih p (by omega) (by omega) (by omega)
              omega
            · rw [if_neg hg]
              split <;> omega
      · rw [dpLen_zero_of_not_cell hc]
        exact Nat.zero_le _

lemma foldl_bestUpd_no_change (a b : List Char) (alo blo bhi i : Nat)
    (best : Nat × Nat × Nat) :
    ∀ l : List Nat, (∀ j ∈ l, dpLen a b alo blo bhi i j ≤ best.2.2) →
      l.foldl (bestUpd a b alo blo bhi i) best = best := by
  intro l
  induction l with
  | nil => intro _; rfl
  | cons j t ih =>
      intro h
      rw [List.foldl_cons]
      have hstep : bestUpd a b alo blo bhi i best j = best := by
        unfold bestUpd
        split
        · dsimp only
          rw [if_neg (by have := h j (List.mem_cons_self j t); omega)]
        · rfl
      rw [hstep]
      exact ih (fun p hp => h p (List.mem_cons_of_mem j hp))

lemma foldl_range_split {α : Type} (f : α → Nat → α) (init : α) (i n : Nat)
    (h : i < n) :
    (List.range n).foldl f init =
      (List.range' (i+1) (n - i - 1)).foldl f (f ((List.range i).foldl f init) i) := by
  obtain ⟨k, hk⟩ : ∃ k, n - i = k + 1 := ⟨n - i - 1, by omega⟩
  have e1 : List.range' 0 i ++ List.range' i (n - i) = List.range' 0 n := by
    have h2 := List.range'_append 0 i (n - i) 1
    simp only [Nat.zero_add, Nat.one_mul] at h2
    rw [h2, show (n - i) + i = n from by omega]
  have e2 : List.range' i (n - i) = i :: List.range' (i+1) k := by
    rw [hk]
    have := List.range'_succ i k 1
    simpa using this
  calc (List.range n).foldl f init
      = (List.range' 0 i ++ List.range' i (n - i)).foldl f init := by
        rw [e1, ← List.range_eq_range']
    _ = (List.range' i (n - i)).foldl f ((List.range' 0 i).foldl f init) :=
        List.foldl_append f init _ _
    _ = (List.range' (i+1) (n - i - 1)).foldl f
          (f ((List.range i).foldl f init) i) := by
        rw [e2, List.foldl_cons, ← List.range_eq_range',
          show k = n - i - 1 from by omega]

lemma rowFold_diag (x : List Char) (lo bhi v B i : Nat)
    (hloi : lo ≤ i) (hib : i < bhi)
    (hB : ∀ p, lo ≤ p → p < i → dpLen x x lo lo bhi p p ≤ B) :
    rowFold x x lo lo bhi (v, v, B) i =
      if B < dpLen x x lo lo bhi i i then
        (i + 1 - dpLen x x lo lo bhi i i, i + 1 - dpLen x x lo lo bhi i i,
          dpLen x x lo lo bhi i i)
      else (v, v, B) := by
  unfold rowFold
  rw [foldl_range_split (bestUpd x x lo lo bhi i) (v, v, B) i bhi hib]
  have hpre : (List.range i).foldl (bestUpd x x lo lo bhi i) (v, v, B) = (v, v, B) := by
    apply foldl_bestUpd_no_change
    intro j hj
    have hji : j < i := List.mem_range.mp hj
    by_cases hc : dpCell x x lo bhi i j = true
    · have hloj : lo ≤ j := (dpCell_bounds hc).1
      exact le_trans (dpLen_le_diag_left x lo bhi i j (le_of_lt hji)) (hB j hloj hji)
    · rw [dpLen_zero_of_not_cell hc]
      exact Nat.zero_le _
  rw [hpre]
  have hcell : bestUpd x x lo lo bhi i (v, v, B) i =
      if B < dpLen x x lo lo bhi i i then
        (i + 1 - dpLen x x lo lo bhi i i, i + 1 - dpLen x x lo lo bhi i i,
          dpLen x x lo lo bhi i i)
      else (v, v, B) := by
    unfold bestUpd
    by_cases hc : dpCell x x lo bhi i i = true
    · rw [if_pos hc]
    · rw [if_neg hc, dpLen_zero_of_not_cell hc, if_neg (by omega)]
  rw [hcell]
  by_cases hup : B < dpLen x x lo lo bhi i i
  · simp only [if_pos hup]
    apply foldl_bestUpd_no_change
    intro j hj
    have hmem := List.mem_range'_1.mp hj
    exact dpLen_le_diag_right x lo bhi i j (by omega) hloi hib
  · simp only [if_neg hup]
    apply foldl_bestUpd_no_change
    intro j hj
    have hmem := List.mem_range'_1.mp hj
    exact le_trans (dpLen_le_diag_right x lo bhi i j (by omega) hloi hib)
      (le_of_not_lt hup)

lemma dpBest_diag_aux (x : List Char) (lo hi : Nat) :
    ∀ m, m ≤ hi - lo →
      ∃ v B, (List.range' lo m).foldl (rowFold x x lo lo hi) (lo, lo, 0) = (v, v, B) ∧
        ∀ p, lo ≤ p → p < lo + m → dpLen x x lo lo hi p p ≤ B := by
  intro m
  induction m with
  | zero =>
      intro _
      exact ⟨lo, 0, rfl, fun p h1 h2 => absurd h2 (by omega)⟩
  | succ m ih =>
      intro hm
      obtain ⟨v, B, heq, hB⟩ := ih (by omega)
      have hconcat : List.range' lo (m+1) = List.range' lo m ++ [lo + m] := by
        have := @List.range'_concat 1 lo m
        simpa using this
      rw [hconcat, List.foldl_append, heq]
      simp only [List.foldl_cons, List.foldl_nil]
      rw [rowFold_diag x lo hi v B (lo + m) (by omega) (by omega)
        (fun p h1 h2 => hB p h1 (by omega))]
      by_cases hup : B < dpLen x x lo lo hi (lo + m) (lo + m)
      · rw [if_pos hup]
        refine ⟨_, _, rfl, ?_⟩
        intro p h1 h2
        rcases (by omega : p < lo + m ∨ p = lo + m) with hp | hp
        · exact le_trans (hB p h1 hp) (le_of_lt hup)
        · rw [hp]
      · rw [if_neg hup]
        refine ⟨v, B, rfl, ?_⟩
        intro p h1 h2
        rcases (by omega : p < lo + m ∨ p = lo + m) with hp | hp
        · exact hB p h1 hp
        · rw [hp]; exact le_of_not_lt hup

lemma dpBest_diag (x : List Char) (lo hi : Nat) :
    ∃ v B, dpBest x x lo hi lo hi = (v, v, B) := by
  obtain ⟨v, B, heq, -⟩ := dpBest_diag_aux x lo hi (hi - lo) (le_refl _)
  exact ⟨v, B, heq⟩

lemma extLeft_false (a b : List Char) (alo blo : Nat) :
    ∀ bi bj k, extLeft a b (fun _ => false) alo blo bi bj k = (bi, bj, k) := by
  intro bi
  cases bi with
  | zero => intro bj k; rfl
  | succ m =>
      intro bj k
      rw [extLeft]
      split
      · next hcond =>
          exfalso
          obtain ⟨-, -, hmatch⟩ := hcond
          rcases hx : a[m]? with _ | u <;> rcases hy : b[bj-1]? with _ | w <;>
            rw [hx, hy] at hmatch <;> simp at hmatch
      · rfl

lemma extRight_false (a b : List Char) (ahi bhi bi bj : Nat) :
    ∀ fuel k, extRight a b (fun _ => false) ahi bhi bi bj fuel k = k := by
  intro fuel
  cases fuel with
  | zero => intro k; rfl
  | succ f =>
      intro k
      rw [extRight]
      split
      · next hcond =>
          exfalso
          obtain ⟨-, -, hmatch⟩ := hcond
          rcases hx : a[bi+k]? with _ | u <;> rcases hy : b[bj+k]? with _ | w <;>
            rw [hx, hy] at hmatch <;> simp at hmatch
      · rfl

lemma extLeft_diag_full (x : List Char) (lo hi : Nat) (hlen : hi ≤ x.length) :
    ∀ v k, lo ≤ v → v + k ≤ hi →
      extLeft x x (fun _ => true) lo lo v v k = (lo, lo, k + (v - lo)) := by
  intro v
  induction v with
  | zero =>
      intro k h1 h2
      have h0 : lo = 0 := by omega
      subst h0
      rfl
  | succ m ih =>
      intro k h1 h2
      rw [extLeft]
      split
      · next hcond =>
          simp only [Nat.add_sub_cancel]
          rw [ih (k+1) (by have := hcond.1; omega) (by omega)]
          have harr : k + 1 + (m - lo) = k + (m + 1 - lo) := by
            have := hcond.1; omega
          rw [harr]
      · next hcond =>
          have hm : m < x.length := by omega
          by_cases hlo : lo < m + 1
          · exfalso
            apply hcond
            refine ⟨hlo, hlo, ?_⟩
            simp only [Nat.add_sub_cancel]
            rw [List.getElem?_eq_getElem hm]
            simp
          · have hlo' : lo = m + 1 := by omega
            subst hlo'
            simp [Nat.sub_self]

lemma extRight_diag_full (x : List Char) (lo hi : Nat) (hlen : hi ≤ x.length) :
    ∀ fuel k, k ≤ hi - lo → hi - lo - k ≤ fuel →
      extRight x x (fun _ => true) hi hi lo lo fuel k = hi - lo := by
  intro fuel
  induction fuel with
  | zero =>
      intro k h1 h2
      have hk : k = hi - lo := by omega
      exact hk
  | succ f ih =>
      intro k h1 h2
      rcases (by omega : k = hi - lo ∨ k < hi - lo) with hk | hk
      · rw [extRight]
        split
        · next hcond => exact absurd hcond.1 (by omega)
        · exact hk
      · rw [extRight]
        split
        · next hcond => exact ih (k+1) (by omega) (by omega)
        · next hcond =>
            exfalso
            apply hcond
            refine ⟨by omega, by omega, ?_⟩
            rw [List.getElem?_eq_getElem (show lo + k < x.length by omega)]
            simp

lemma findLongestMatch_diag (x : List Char) (lo hi : Nat) (hlo : lo ≤ hi)
    (hlen : hi ≤ x.length) :
    findLongestMatch x x lo hi lo hi = (lo, lo, hi - lo) := by
  obtain ⟨v, B, hvB⟩ := dpBest_diag x lo hi
  obtain ⟨h1, h2, h3, h4⟩ := dpBest_inv x x lo hi lo hi hlo hlo
  rw [hvB] at h1 h3
  have h1' : lo ≤ v := h1
  have h3' : v + B ≤ hi := h3
  unfold findLongestMatch
  rw [hvB]
  dsimp only
  rw [extLeft_diag_full x lo hi hlen v B h1' h3']
  dsimp only
  rw [extRight_diag_full x lo hi hlen hi (B + (v - lo)) (by omega) (by omega)]
  rw [extLeft_false]
  dsimp only
  rw [extRight_false]

lemma matchingSumF_self_empty (x : List Char) (c : Nat) (hc : c ≤ x.length) :
    ∀ fuel, 1 ≤ fuel → matchingSumF x x fuel c c c c = 0 := by
  intro fuel h
  obtain ⟨f, rfl⟩ : ∃ f, fuel = f + 1 := ⟨fuel - 1, by omega⟩
  rw [matchingSumF, findLongestMatch_diag x c c (le_refl c) hc]
  simp

lemma matchingSumF_self (x : List Char) (lo hi : Nat) (hlo : lo ≤ hi)
    (hlen : hi ≤ x.length) :
    ∀ fuel, 2 ≤ fuel → matchingSumF x x fuel lo hi lo hi = hi - lo := by
  intro fuel h
  obtain ⟨f, rfl⟩ : ∃ f, fuel = f + 1 := ⟨fuel - 1, by omega⟩
  rw [matchingSumF, findLongestMatch_diag x lo hi hlo hlen]
  dsimp only
  by_cases h0 : hi - lo = 0
  · rw [if_pos h0]
    omega
  · rw [if_neg h0]
    rw [matchingSumF_self_empty x lo (by omega) f (by omega)]
    rw [show lo + (hi - lo) = hi from by omega]
    rw [matchingSumF_self_empty x hi hlen f (by omega)]
    omega

lemma ratio_self (x : List Char) : ratio x x = 1 := by
  unfold ratio
  by_cases h0 : x.length + x.length = 0
  · rw [if_pos h0]
  · rw [if_neg h0]
    rw [matchingSumF_self x 0 x.length (by omega) (le_refl _)
      (x.length + x.length + 1) (by omega)]
    rw [Nat.sub_zero]
    rw [div_eq_one_iff_eq (by exact_mod_cast h0)]
    push_cast
    ring

lemma ratio_bounds (a b : List Char) : 0 ≤ ratio a b ∧ ratio a b ≤ 1 := by
  unfold ratio
  split
  · norm_num
  · next h0 =>
      have hM := matchingSumF_le a b (a.length + b.length + 1) 0 a.length 0 b.length
        (by omega) (by omega)
      have h2M : 2 * matchingSumF a b (a.length + b.length + 1) 0 a.length 0 b.length ≤
          a.length + b.length := by omega
      have hpos : (0 : Rat) < ((a.length + b.length : Nat) : Rat) := by
        exact_mod_cast Nat.pos_of_ne_zero h0
      constructor
      · apply div_nonneg _ (le_of_lt hpos)
        positivity
      · rw [div_le_one hpos]
        calc 2 * (matchingSumF a b (a.length + b.length + 1) 0 a.length 0 b.length : Rat)
            = ((2 * matchingSumF a b (a.length + b.length + 1) 0 a.length 0 b.length : Nat) : Rat) := by
              push_cast; ring
          _ ≤ ((a.length + b.length : Nat) : Rat) := Nat.cast_le.mpr h2M

end SeqMatcher

/-- C4: `similar(x, x) = 1.0` for every string `x` (including `""` via the
zero-length branch of `_calculate_ratio`, and including strings long
enough to trigger autojunk, where the extension loops still recover the
full diagonal match), and `similar` always lies in `[0, 1]`. -/
theorem c4_similar_identity_and_bounds :
    (∀ x : String, similar x x = 1) ∧
    (∀ a b : String, 0 ≤ similar a b ∧ similar a b ≤ 1) :=
  ⟨fun x => SeqMatcher.ratio_self x.data,
   fun a b => SeqMatcher.ratio_bounds a.data b.data⟩

/-- C10: `representative_caption` on the empty caption list does not raise
but returns the sentinel triple `("", -1, [])` (analysis_pipeline.py,
lines 216-218). -/
theorem c10_representative_caption_empty :
    representative_caption [] = ("", -1, []) := by decide

/-- C2, counterexample: on
`["a cat on a mat", "a cat on a mat", "a dog running", "a dog runs fast"]`
with `threshold = 0.6, max_gap = 1, fps = 1.0`, `categorize_scenes` does
*not* produce 2 scenes: at `i = 2` the dissimilar caption
(`similar = 8/27 < 0.6`) is tolerated by the `gap < max_gap` branch
instead of splitting, and at `i = 3` `similar("a dog runs fast",
"a dog running") = 9/14 ≥ 0.6` continues the same scene. -/
theorem c2_counterexample :
    (categorize_scenes
        ["a cat on a mat", "a cat on a mat", "a dog running", "a dog runs fast"]
        (3/5) 1 1).length ≠ 2 := by
  rw [categorize_c2_eval]
  decide

/-- C2, amended: that input produces exactly one scene, covering caption
index range `[0, 4)`, i.e. `start_time = 0.0` and `end_time = 4.0`, and
holding all four captions. -/
theorem c2_amended_single_scene :
    categorize_scenes
        ["a cat on a mat", "a cat on a mat", "a dog running", "a dog runs fast"]
        (3/5) 1 1 =
      [{ captions :=
           ["a cat on a mat", "a cat on a mat", "a dog running", "a dog runs fast"],
         start_time := 0, end_time := 4 }] := categorize_c2_eval

/-- C7, counterexample: a failure affecting a single time sample is *not*
always caught in isolation: the frame-retrieval step (lines 280-287 of
`analyze_emotions`) runs outside the `try`, so its failure aborts the
whole stage, producing no record at all for the requested sample. -/
theorem c7_counterexample :
    analyzeEmotions (fun _ => (Except.error "frame read failed" : Except String Unit))
        (fun _ => Except.ok { dominant := "happy", scores := [] }) [0] =
      Except.error "frame read failed" := rfl

/-- C7, amended: provided frame retrieval succeeds on every requested
time, the stage returns exactly one record per requested time sample, a
classification failure being caught in isolation and encoded inline as
`{dominant_emotion: "error", emotion_scores: {}, num_faces: 0, error: e}`
without aborting the stage. -/
theorem c7_amended_classify_contained {α : Type}
    (getFrame : Rat → Except String α) (f : Rat → α)
    (classify : α → Except String Classified) (times : List Rat)
    (hget : ∀ t, getFrame t = Except.ok (f t)) :
    analyzeEmotions getFrame classify times =
      Except.ok (times.map fun t =>
        match classify (f t) with
        | Except.ok c => okSample t c
        | Except.error e => errSample t e) := by
  induction times with
  | nil => rfl
  | cons t ts ih => simp only [analyzeEmotions, hget t, List.map_cons, ih]

/-- C7 witness: two samples whose classification fails are both encoded
inline and the stage still returns one record per sample. -/
theorem c7_amended_classify_contained_witness :
    analyzeEmotions (fun _ => Except.ok ())
        (fun _ => (Except.error "model failed" : Except String Classified)) [0, 1] =
      Except.ok [errSample 0 "model failed", errSample 1 "model failed"] :=
  (c7_amended_classify_contained (fun _ => Except.ok ()) (fun _ => ())
      (fun _ => Except.error "model failed") [0, 1] (fun _ => rfl)).trans (by rfl)

/-- C5: for a caption list with at least two members,
`representative_caption` returns the caption at the index maximising
`score[i] = Σ_{j ≠ i} similar(captions[i], captions[j])`, ties broken by
the smallest index (the ascending scan updates only on a strictly larger
score), together with that index and the full score vector; a
single-member list yields that member at index 0 with score vector
`[1.0]`; in particular `["x", "x", "y"]` yields `("x", 0, [1, 1, 0])`. -/
theorem c5_representative_medoid :
    (∀ captions : List String, 2 ≤ captions.length →
      (representative_caption captions).1 =
          captions.getD (representative_caption captions).2.1.toNat "" ∧
      (representative_caption captions).2.1 =
          ((representative_caption captions).2.1.toNat : Int) ∧
      (representative_caption captions).2.1.toNat < captions.length ∧
      (representative_caption captions).2.2.length = captions.length ∧
      (∀ i, i < captions.length →
        (representative_caption captions).2.2.getD i 0 =
          (((List.range captions.length).filter fun j => decide (j ≠ i)).map fun j =>
            similar (captions.getD i "") (captions.getD j "")).sum) ∧
      (∀ j, j < captions.length →
        (representative_caption captions).2.2.getD j 0 ≤
          (representative_caption captions).2.2.getD
            (representative_caption captions).2.1.toNat 0) ∧
      (∀ j, j < (representative_caption captions).2.1.toNat →
        (representative_caption captions).2.2.getD j 0 <
          (representative_caption captions).2.2.getD
            (representative_caption captions).2.1.toNat 0)) ∧
    (∀ c : String, representative_caption [c] = (c, 0, [1])) ∧
    representative_caption ["x", "x", "y"] = ("x", 0, [1, 1, 0]) := by
  refine ⟨?_, fun c => rfl, ?_⟩
  · intro captions h2
    have hn0 : ¬ captions.length = 0 := by omega
    have hn1 : ¬ captions.length = 1 := by omega
    have hpos : 0 < captions.length := by omega
    unfold representative_caption
    rw [if_neg hn0, if_neg hn1]
    dsimp only
    set n := captions.length with hn
    set f : Nat → Rat := fun i =>
      (List.range n).foldl
        (fun s j =>
          if i = j then s
          else s + similar (captions.getD i "") (captions.getD j "")) 0 with hf
    set S : List Rat := (List.range n).map f with hS
    have hSlen : S.length = n := by simp [hS]
    have hSget : ∀ i, i < n → S.getD i 0 =
        (((List.range n).filter fun j => decide (j ≠ i)).map fun j =>
          similar (captions.getD i "") (captions.getD j "")).sum := by
      intro i hi
      rw [List.getD_eq_getElem _ _ (by simpa [hSlen] using hi)]
      simp only [hS, List.getElem_map, List.getElem_range, hf]
      rw [foldl_score, zero_add]
    obtain ⟨hb1, hb2, hb3⟩ :=
      argmax_fold (fun t => S.getD t 0) n hpos
    exact ⟨rfl, rfl, hb1, hSlen, hSget, hb2, hb3⟩
  · have hxx := sim_x_x
    have hxy := sim_x_y
    have hyx := sim_y_x
    unfold representative_caption
    norm_num [List.range_succ, List.getD, hxx, hxy, hyx]

/-- C5 witness: instantiation at `["x", "x", "y"]`, discharging the
two-member hypothesis. -/
theorem c5_representative_medoid_witness :
    (representative_caption ["x", "x", "y"]).2.1.toNat <
        (["x", "x", "y"] : List String).length ∧
    representative_caption ["x", "x", "y"] = ("x", 0, [1, 1, 0]) :=
  ⟨(c5_representative_medoid.1 ["x", "x", "y"] (by decide)).2.2.1,
   c5_representative_medoid.2.2⟩

/-- C6: `merge_text_and_emotions` produces exactly one merged unit per
sentence unit (the text split on the literal `". "`, stripped, with empty
pieces discarded, order preserved); unit `i` carries sample `i`'s
`dominant_emotion`, `emotion_scores` and `time` when `i < len(emotions)`,
and the defaults `emotion = "neutral"`, `emotion_scores = {}`,
`time = None` otherwise. -/
theorem c6_merge_positional (transcript_text : String)
    (emotions : List EmotionSample) :
    (merge_text_and_emotions transcript_text emotions).length
        = (sentenceUnits transcript_text).length ∧
    (∀ i (hu : i < (sentenceUnits transcript_text).length)
        (hm : i < (merge_text_and_emotions transcript_text emotions).length)
        (he : i < emotions.length),
      (merge_text_and_emotions transcript_text emotions)[i] =
        { text := (sentenceUnits transcript_text)[i]
          emotion := emotions[i].dominant_emotion
          emotion_scores := emotions[i].emotion_scores
          time := some emotions[i].time }) ∧
    (∀ i (hu : i < (sentenceUnits transcript_text).length)
        (hm : i < (merge_text_and_emotions transcript_text emotions).length),
      emotions.length ≤ i →
      (merge_text_and_emotions transcript_text emotions)[i] =
        { text := (sentenceUnits transcript_text)[i]
          emotion := "neutral", emotion_scores := [], time := none }) := by
  refine ⟨by simp [merge_text_and_emotions], ?_, ?_⟩
  · intro i hu hm he
    simp only [merge_text_and_emotions, List.getElem_map, List.getElem_enum,
      List.getElem?_eq_getElem he]
  · intro i hu hm hge
    simp only [merge_text_and_emotions, List.getElem_map, List.getElem_enum,
      List.getElem?_eq_none (by simpa using hge)]

/-- C6 witness: with 3 sentences and 2 samples, the 3rd merged unit is the
neutral default. -/
theorem c6_merge_positional_witness :
    (merge_text_and_emotions "One. Two. Three."
        [{ time := 0, dominant_emotion := "happy", emotion_scores := [],
           num_faces := 1, error := none },
         { time := 1, dominant_emotion := "sad", emotion_scores := [],
           num_faces := 1, error := none }]).getD 2
        { text := "", emotion := "", emotion_scores := [], time := none } =
      { text := "Three.", emotion := "neutral", emotion_scores := [],
        time := none } := by
  have h := (c6_merge_positional "One. Two. Three."
      [{ time := 0, dominant_emotion := "happy", emotion_scores := [],
         num_faces := 1, error := none },
       { time := 1, dominant_emotion := "sad", emotion_scores := [],
         num_faces := 1, error := none }]).2.2 2 (by decide) (by decide)
      (by decide)
  rw [List.getD_eq_getElem _ _ (by decide), h]
  rfl

/-- C3: the Transcript Aligner attaches to each scene exactly the ordered
subsequence of transcript texts whose segment has both endpoints inside
the scene's closed interval; a segment whose `end` exceeds the scene's
`end_time` (or whose `start` precedes its `start_time`) is excluded, so a
boundary-straddling segment is attached to neither adjoining scene — in
particular `{start = 0.9, end = 1.1}` against scenes `[0, 1]` and `[1, 2]`
appears in neither dialogue. -/
theorem c3_aligner_closed_interval (scenes : List Scene)
    (segs : List TranscriptSegment) :
    (combine_scenes_with_transcript scenes segs).length = scenes.length ∧
    (∀ k (hs : k < scenes.length)
        (hc : k < (combine_scenes_with_transcript scenes segs).length),
      (combine_scenes_with_transcript scenes segs)[k].dialogue =
        (segs.filter (segInScene scenes[k])).map fun g => g.text) ∧
    (∀ sc g, segInScene sc g = true ↔
      (sc.start_time ≤ g.start ∧ g.start ≤ sc.end_time ∧
       sc.start_time ≤ g.stop ∧ g.stop ≤ sc.end_time)) ∧
    (∀ sc g, sc.end_time < g.stop → segInScene sc g = false) ∧
    (∀ sc g, g.start < sc.start_time → segInScene sc g = false) ∧
    ((combine_scenes_with_transcript
        [{ captions := ["a"], start_time := 0, end_time := 1 },
         { captions := ["b"], start_time := 1, end_time := 2 }]
        [{ start := 9/10, stop := 11/10, text := "line" }]).map
          (fun c => c.dialogue) = [[], []]) := by
  refine ⟨by simp [combine_scenes_with_transcript], ?_, ?_, ?_, ?_, ?_⟩
  · intro k hs hc
    simp only [combine_scenes_with_transcript, List.getElem_map]
  · intro sc g
    simp [segInScene, and_assoc]
  · intro sc g h
    rw [Bool.eq_false_iff]
    intro hb
    simp only [segInScene, Bool.and_eq_true, decide_eq_true_eq] at hb
    exact absurd hb.2 (not_le.mpr h)
  · intro sc g h
    rw [Bool.eq_false_iff]
    intro hb
    simp only [segInScene, Bool.and_eq_true, decide_eq_true_eq] at hb
    exact absurd hb.1.1.1 (not_le.mpr h)
  · have h1 : ¬ ((11 : Rat)/10 ≤ 1) := by norm_num
    have h2 : (9 : Rat)/10 < 1 := by norm_num
    simp [combine_scenes_with_transcript, segInScene, List.filter, h1,
      not_le.mpr h2]

/-- C3 witness: instantiation of the aligner contract on the boundary
example. -/
theorem c3_aligner_closed_interval_witness :
    segInScene { captions := ["a"], start_time := 0, end_time := 1 }
        { start := 9/10, stop := 11/10, text := "line" } = false ∧
    segInScene { captions := ["b"], start_time := 1, end_time := 2 }
        { start := 9/10, stop := 11/10, text := "line" } = false :=
  ⟨(c3_aligner_closed_interval [] []).2.2.2.1
      { captions := ["a"], start_time := 0, end_time := 1 }
      { start := 9/10, stop := 11/10, text := "line" } (by norm_num),
   (c3_aligner_closed_interval [] []).2.2.2.2.1
      { captions := ["b"], start_time := 1, end_time := 2 }
      { start := 9/10, stop := 11/10, text := "line" } (by norm_num)⟩

/-- C8: on every exit path of `process_video_task` — success or a failure
raised by any stage — the artifact-removal step of the `finally` block is
reached exactly once, as the final action of the run
(tasks.py, lines 106-110). -/
theorem c8_artifact_removed_once {φ : Type}
    (transcribe : Except String TranscriptionResult)
    (extract_frames : Except String (List φ))
    (caption_frames : List φ → Except String (List String))
    (emotions : Except String (List EmotionSample)) :
    ((process_video_task transcribe extract_frames caption_frames emotions).1.count
        Event.removeArtifact = 1) ∧
    ((process_video_task transcribe extract_frames caption_frames emotions).1.getLast? =
        some Event.removeArtifact) := by
  unfold process_video_task taskBody
  cases transcribe with
  | error e => exact ⟨rfl, rfl⟩
  | ok t =>
      cases extract_frames with
      | error e => exact ⟨rfl, rfl⟩
      | ok frames =>
          cases h : caption_frames frames with
          | error e => simp only [h]; exact ⟨rfl, rfl⟩
          | ok caps =>
              simp only [h]
              cases emotions with
              | error e => exact ⟨rfl, rfl⟩
              | ok ems => exact ⟨rfl, rfl⟩

/-- C9: the percent values published by one run of `process_video_task`
are a prefix of the fixed schedule
`[5, 20, 40, 60, 70, 80, 90, 100]` (the whole schedule when the run
succeeds), and are therefore non-decreasing. -/
theorem c9_percent_schedule {φ : Type}
    (transcribe : Except String TranscriptionResult)
    (extract_frames : Except String (List φ))
    (caption_frames : List φ → Except String (List String))
    (emotions : Except String (List EmotionSample)) :
    (∃ k, percents (process_video_task transcribe extract_frames caption_frames emotions).1
        = schedule.take k) ∧
    List.Sorted (· ≤ ·)
      (percents (process_video_task transcribe extract_frames caption_frames emotions).1) ∧
    (∀ res,
      (process_video_task transcribe extract_frames caption_frames emotions).2 =
        Except.ok res →
      percents (process_video_task transcribe extract_frames caption_frames emotions).1
        = schedule) := by
  unfold process_video_task taskBody
  cases transcribe with
  | error e =>
      refine ⟨⟨2, rfl⟩, ?_, ?_⟩
      · exact (by decide : List.Sorted (· ≤ ·) ([5, 20] : List Nat))
      · intro res hres
        have h2 : (Except.error e : Except String TaskResult) = Except.ok res := hres
        simp at h2
  | ok t =>
      cases extract_frames with
      | error e =>
          refine ⟨⟨3, rfl⟩, ?_, ?_⟩
          · exact (by decide : List.Sorted (· ≤ ·) ([5, 20, 40] : List Nat))
          · intro res hres
            have h2 : (Except.error e : Except String TaskResult) = Except.ok res := hres
            simp at h2
      | ok frames =>
          cases h : caption_frames frames with
          | error e =>
              simp only [h]
              refine ⟨⟨4, rfl⟩, ?_, ?_⟩
              · exact (by decide : List.Sorted (· ≤ ·) ([5, 20, 40, 60] : List Nat))
              · intro res hres
                have h2 : (Except.error e : Except String TaskResult) = Except.ok res :=
                  hres
                simp at h2
          | ok caps =>
              simp only [h]
              cases emotions with
              | error e =>
                  refine ⟨⟨7, rfl⟩, ?_, ?_⟩
                  · exact (by decide :
                      List.Sorted (· ≤ ·) ([5, 20, 40, 60, 70, 80, 90] : List Nat))
                  · intro res hres
                    have h2 : (Except.error e : Except String TaskResult) = Except.ok res :=
                      hres
                    simp at h2
              | ok ems =>
                  exact ⟨⟨8, rfl⟩,
                    (by decide :
                      List.Sorted (· ≤ ·) ([5, 20, 40, 60, 70, 80, 90, 100] : List Nat)),
                    fun res _ => rfl⟩

/-- C9 witness: a run with all collaborators succeeding publishes the full
schedule. -/
theorem c9_percent_schedule_witness :
    percents (process_video_task (φ := Unit)
        (Except.ok { segments := [], text := "", language := "en" })
        (Except.ok []) (fun _ => Except.ok []) (Except.ok [])).1 = schedule :=
  (c9_percent_schedule (φ := Unit)
      (Except.ok { segments := [], text := "", language := "en" })
      (Except.ok []) (fun _ => Except.ok []) (Except.ok [])).2.2 _ rfl

end VideoAnalysis
